import Mathlib

/-!
Shallow embedding of the statsfs source-tree / value-aggregation engine
(fs/statsfs/statsfs.c) together with proofs about its behaviour.

Modelling conventions:
* Machine memory is a byte map `Mem : Nat → Nat`; a load of an n-byte
  field at an address is a little-endian read of n bytes (each taken
  mod 256), a clear stores n zero bytes.  This models the C casts
  `*(uintN_t *)address` / `*(intN_t *)address` on the little-endian
  platforms the code runs on.
* A descriptor array (`struct statsfs_value *`) is identified by a
  numeric id; the environment `Env` maps ids to the array contents
  (the entries before the NULL-name terminator).  A descriptor pointer
  (`struct statsfs_value *` pointing into an array) is a pair
  `VPtr = (array id, index)`; C pointer equality of descriptors is
  equality of these pairs.
* A value group (`struct statsfs_value_source`) carries its heap
  identity `gid` (the C struct's address), its `base_addr`
  (`Option Nat`, `none` = NULL) and the id of its descriptor array.
* A source is the tree node `Source.node name value_groups subordinates`.
  The rw-semaphore, the refcount and the dentry fields only matter for
  concurrency and for the presentation layer, which the sequential
  embedding does not model; lock acquisition is a no-op here, so the
  `_locked` variants and their wrappers coincide.
* Error returns follow the kernel: `0` success, `-ENOENT`, `-EEXIST`,
  `-ENOMEM` as `Int` codes.
-/

def Mem : Type := Nat → Nat

/-- Little-endian load of `n` bytes at `addr` (each memory cell is a byte,
read mod 256). -/
def loadLE (mem : Mem) (addr : Nat) : Nat → Nat
  | 0 => 0
  | n + 1 => mem addr % 256 + 256 * loadLE mem (addr + 1) n

/-- Store `n` zero bytes at `addr`. -/
def storeZeroLE (mem : Mem) (addr : Nat) : Nat → Mem
  | 0 => mem
  | n + 1 => storeZeroLE (fun a => if a = addr then 0 else mem a) (addr + 1) n

/-- Two's-complement interpretation of a `w`-bit pattern as a signed integer. -/
def as_signed (w : Nat) (v : Nat) : Int :=
  if v < 2 ^ (w - 1) then (v : Int) else (v : Int) - 2 ^ w

/-- Conversion of a signed integer to `uint64_t` (C conversion, mod 2^64). -/
def s64_of_int (i : Int) : Nat := (i % (2 ^ 64 : Int)).toNat

/- Constants from include/linux/statsfs.h. -/

def STATSFS_SIGN : Nat := 0x8000
def STATSFS_U8 : Nat := 0
def STATSFS_U16 : Nat := 1
def STATSFS_U32 : Nat := 2
def STATSFS_U64 : Nat := 3
def STATSFS_BOOL : Nat := 4

def STATSFS_NONE : Nat := 0
def STATSFS_SUM : Nat := 1
def STATSFS_MIN : Nat := 2
def STATSFS_MAX : Nat := 3
def STATSFS_COUNT_ZERO : Nat := 4
def STATSFS_AVG : Nat := 5

def ENOENT : Int := 2
def ENOMEM : Int := 12
def EEXIST : Int := 17

/-- One entry of a descriptor array (`struct statsfs_value`). -/
structure statsfs_value where
  name : String
  offset : Nat
  type : Nat
  aggr_kind : Nat
  deriving DecidableEq

/-- A pointer to one descriptor: the identity of the array it lives in and
its index there.  C pointer equality of `struct statsfs_value *` is
equality of these pairs. -/
structure VPtr where
  arr : Nat
  idx : Nat
  deriving DecidableEq

/-- A value group (`struct statsfs_value_source`): heap identity `gid`,
nullable base address, identity of the shared descriptor array. -/
structure statsfs_value_source where
  gid : Nat
  base_addr : Option Nat
  values : Nat
  deriving DecidableEq

/-- The descriptor-array heap: array id ↦ the entries before the
NULL-name terminator. -/
structure Env where
  arrays : Nat → List statsfs_value

/-- A source node (`struct statsfs_source`): name, list of value groups,
list of subordinate sources. -/
inductive Source where
  | node (name : String) (values_head : List statsfs_value_source)
      (subordinates_head : List Source) : Source

def Source.values_head : Source → List statsfs_value_source
  | .node _ v _ => v

def Source.subordinates_head : Source → List Source
  | .node _ _ s => s

def Source.name : Source → String
  | .node n _ _ => n

/-- `is_val_signed` returns `val->type & STATSFS_SIGN` (a C int: zero or
0x8000, not a boolean 0/1 — `store_final_value` relies on this). -/
def is_val_signed (val : statsfs_value) : Nat := val.type &&& STATSFS_SIGN

/-- Byte width of each descriptor kind (U8/S8 and BOOL are one byte, …);
used by `get_simple_value` / `clear_simple_value` below. -/
def get_simple_value (mem : Mem) (src : statsfs_value_source)
    (val : statsfs_value) : Nat :=
  let address := src.base_addr.getD 0 + val.offset
  if val.type = STATSFS_U8 then loadLE mem address 1
  else if val.type = (STATSFS_U8 ||| STATSFS_SIGN) then
    s64_of_int (as_signed 8 (loadLE mem address 1))
  else if val.type = STATSFS_U16 then loadLE mem address 2
  else if val.type = (STATSFS_U16 ||| STATSFS_SIGN) then
    s64_of_int (as_signed 16 (loadLE mem address 2))
  else if val.type = STATSFS_U32 then loadLE mem address 4
  else if val.type = (STATSFS_U32 ||| STATSFS_SIGN) then
    s64_of_int (as_signed 32 (loadLE mem address 4))
  else if val.type = STATSFS_U64 then loadLE mem address 8
  else if val.type = (STATSFS_U64 ||| STATSFS_SIGN) then
    s64_of_int (as_signed 64 (loadLE mem address 8))
  else if val.type = STATSFS_BOOL then loadLE mem address 1
  else 0

/-- `clear_simple_value`: store a zero of the descriptor's width at
`base + offset`; unknown kinds store nothing. -/
def clear_simple_value (mem : Mem) (src : statsfs_value_source)
    (val : statsfs_value) : Mem :=
  let address := src.base_addr.getD 0 + val.offset
  if val.type = STATSFS_U8 then storeZeroLE mem address 1
  else if val.type = (STATSFS_U8 ||| STATSFS_SIGN) then storeZeroLE mem address 1
  else if val.type = STATSFS_U16 then storeZeroLE mem address 2
  else if val.type = (STATSFS_U16 ||| STATSFS_SIGN) then storeZeroLE mem address 2
  else if val.type = STATSFS_U32 then storeZeroLE mem address 4
  else if val.type = (STATSFS_U32 ||| STATSFS_SIGN) then storeZeroLE mem address 4
  else if val.type = STATSFS_U64 then storeZeroLE mem address 8
  else if val.type = (STATSFS_U64 ||| STATSFS_SIGN) then storeZeroLE mem address 8
  else if val.type = STATSFS_BOOL then storeZeroLE mem address 1
  else mem

/-- Transient accumulator (`struct statsfs_aggregate_value`): `sum`, `min`
and `max` are `uint64_t`, `count` and `count_zero` are `uint32_t`. -/
structure statsfs_aggregate_value where
  sum : Nat
  min : Nat
  max : Nat
  count : Nat
  count_zero : Nat
  deriving DecidableEq

/-- One iteration of the loop body of `search_all_simple_values`: skip
groups with NULL base, skip groups whose descriptor array differs from the
reference group's, otherwise read the field and fold it in. -/
def fold_agg (mem : Mem) (ref_src_entry : statsfs_value_source)
    (val : statsfs_value) (agg : statsfs_aggregate_value)
    (src_entry : statsfs_value_source) : statsfs_aggregate_value :=
  if src_entry.base_addr = none then agg
  else if src_entry.values ≠ ref_src_entry.values then agg
  else
    let value_found := get_simple_value mem src_entry val
    let agg1 : statsfs_aggregate_value :=
      { agg with
        sum := (agg.sum + value_found) % 2 ^ 64
        count := (agg.count + 1) % 2 ^ 32
        count_zero :=
          (agg.count_zero + if value_found = 0 then 1 else 0) % 2 ^ 32 }
    if is_val_signed val ≠ 0 then
      { agg1 with
        max := if as_signed 64 value_found ≥ as_signed 64 agg.max
               then value_found else agg.max
        min := if as_signed 64 value_found ≤ as_signed 64 agg.min
               then value_found else agg.min }
    else
      { agg1 with
        max := if value_found ≥ agg.max then value_found else agg.max
        min := if value_found ≤ agg.min then value_found else agg.min }

/-- `search_all_simple_values`: fold every matching leaf group of one
source into the accumulator. -/
def search_all_simple_values (mem : Mem) (src : Source)
    (ref_src_entry : statsfs_value_source) (val : statsfs_value)
    (agg : statsfs_aggregate_value) : statsfs_aggregate_value :=
  src.values_head.foldl (fold_agg mem ref_src_entry val) agg

mutual

/-- `do_recursive_aggregation`: fold this source's matching leaves, then
recurse into every subordinate. -/
def do_recursive_aggregation (mem : Mem) (ref_src_entry : statsfs_value_source)
    (val : statsfs_value) : Source → statsfs_aggregate_value →
    statsfs_aggregate_value
  | root@(.node _ _ subs), agg =>
      aggregate_subordinates mem ref_src_entry val subs
        (search_all_simple_values mem root ref_src_entry val agg)

def aggregate_subordinates (mem : Mem) (ref_src_entry : statsfs_value_source)
    (val : statsfs_value) : List Source → statsfs_aggregate_value →
    statsfs_aggregate_value
  | [], agg => agg
  | sub :: rest, agg =>
      aggregate_subordinates mem ref_src_entry val rest
        (do_recursive_aggregation mem ref_src_entry val sub agg)

end

/-- `init_aggregate_value`. -/
def init_aggregate_value (val : statsfs_value) : statsfs_aggregate_value :=
  if is_val_signed val ≠ 0 then
    { sum := 0, min := 2 ^ 63 - 1, max := 2 ^ 63, count := 0, count_zero := 0 }
  else
    { sum := 0, min := 2 ^ 64 - 1, max := 0, count := 0, count_zero := 0 }

/-- `store_final_value`: dispatch on `aggr_kind | is_val_signed(val)`;
the default case leaves `*ret` (the `ret` argument) unchanged.  For the
signed average the C divides `(int64_t)sum` by `count` (converted to
`int64_t`), truncating toward zero; since `count > 0` there, all integer
division conventions agree once the dividend's sign is split off. -/
def store_final_value (agg : statsfs_aggregate_value) (val : statsfs_value)
    (ret : Nat) : Nat :=
  let operation := val.aggr_kind ||| is_val_signed val
  if operation = STATSFS_AVG then
    if agg.count ≠ 0 then agg.sum / agg.count else 0
  else if operation = (STATSFS_AVG ||| STATSFS_SIGN) then
    if agg.count ≠ 0 then
      s64_of_int
        (let s := as_signed 64 agg.sum
         if 0 ≤ s then s / (agg.count : Int) else -((-s) / (agg.count : Int)))
    else 0
  else if operation = STATSFS_SUM ∨ operation = (STATSFS_SUM ||| STATSFS_SIGN)
    then agg.sum
  else if operation = STATSFS_MIN ∨ operation = (STATSFS_MIN ||| STATSFS_SIGN)
    then agg.min
  else if operation = STATSFS_MAX ∨ operation = (STATSFS_MAX ||| STATSFS_SIGN)
    then agg.max
  else if operation = STATSFS_COUNT_ZERO ∨
      operation = (STATSFS_COUNT_ZERO ||| STATSFS_SIGN)
    then agg.count_zero
  else ret

/-- `find_value`: walk the group's descriptor array comparing each entry's
address with `val`; a match exists iff `val` points into this group's
array at a valid index, and then the match is `val`'s entry. -/
def find_value (env : Env) (src : statsfs_value_source) (val : VPtr) :
    Option statsfs_value :=
  if src.values = val.arr then (env.arrays val.arr).get? val.idx else none

/-- `search_value_in_source`, iteration over the group list: first group
whose array contains the queried descriptor wins. -/
def search_value_in_list (env : Env) (arg : VPtr) :
    List statsfs_value_source → Option (statsfs_value × statsfs_value_source)
  | [] => none
  | src_entry :: rest =>
      match find_value env src_entry arg with
      | some entry => some (entry, src_entry)
      | none => search_value_in_list env arg rest

def search_value_in_source (env : Env) (src : Source) (arg : VPtr) :
    Option (statsfs_value × statsfs_value_source) :=
  search_value_in_list env arg src.values_head

/-- `statsfs_source_get_value_locked`: result is `(return code, *ret)`. -/
def statsfs_source_get_value_locked (env : Env) (mem : Mem) (source : Source)
    (arg : Option VPtr) : Int × Nat :=
  match arg with
  | none => (-ENOENT, 0)
  | some a =>
      match search_value_in_source env source a with
      | none => (-ENOENT, 0)
      | some (found, src_entry) =>
          if src_entry.base_addr ≠ none then
            (0, get_simple_value mem src_entry found)
          else
            (0, store_final_value
                  (do_recursive_aggregation mem src_entry found source
                    (init_aggregate_value found))
                  found 0)

/-- `statsfs_source_get_value` (the rw-semaphore is a no-op in the
sequential embedding). -/
def statsfs_source_get_value (env : Env) (mem : Mem) (source : Source)
    (arg : Option VPtr) : Int × Nat :=
  statsfs_source_get_value_locked env mem source arg

/-- One iteration of the loop body of `set_all_simple_values`, with the
source's redundant re-check kept as in the C. -/
def fold_clean (ref_src_entry : statsfs_value_source) (val : statsfs_value)
    (mem : Mem) (src_entry : statsfs_value_source) : Mem :=
  if src_entry.base_addr = none then mem
  else if src_entry.values ≠ ref_src_entry.values then mem
  else if src_entry.base_addr ≠ none ∧
      src_entry.values = ref_src_entry.values then
    clear_simple_value mem src_entry val
  else mem

/-- `set_all_simple_values`: zero the field in every matching leaf group
of one source. -/
def set_all_simple_values (src : Source) (ref_src_entry : statsfs_value_source)
    (val : statsfs_value) (mem : Mem) : Mem :=
  src.values_head.foldl (fold_clean ref_src_entry val) mem

mutual

/-- `do_recursive_clean`: zero this source's matching leaves, then recurse
into every subordinate. -/
def do_recursive_clean (ref_src_entry : statsfs_value_source)
    (val : statsfs_value) : Source → Mem → Mem
  | root@(.node _ _ subs), mem =>
      clean_subordinates ref_src_entry val subs
        (set_all_simple_values root ref_src_entry val mem)

def clean_subordinates (ref_src_entry : statsfs_value_source)
    (val : statsfs_value) : List Source → Mem → Mem
  | [], mem => mem
  | sub :: rest, mem =>
      clean_subordinates ref_src_entry val rest
        (do_recursive_clean ref_src_entry val sub mem)

end

/-- `statsfs_source_clear_locked`: result is `(return code, memory)`. -/
def statsfs_source_clear_locked (env : Env) (mem : Mem) (source : Source)
    (arg : Option VPtr) : Int × Mem :=
  match arg with
  | none => (-ENOENT, mem)
  | some a =>
      match search_value_in_source env source a with
      | none => (-ENOENT, mem)
      | some (found, src_entry) =>
          if src_entry.base_addr ≠ none then
            (0, clear_simple_value mem src_entry found)
          else
            (0, do_recursive_clean src_entry found source mem)

def statsfs_source_clear (env : Env) (mem : Mem) (source : Source)
    (arg : Option VPtr) : Int × Mem :=
  statsfs_source_clear_locked env mem source arg

/-- Index of the first entry with the given name in a descriptor array
(`find_value_by_name`'s loop). -/
def find_index_by_name (name : String) : List statsfs_value → Option Nat
  | [] => none
  | entry :: rest =>
      if entry.name = name then some 0
      else (find_index_by_name name rest).map (· + 1)

/-- `find_value_by_name`: the returned entry pointer, as a `VPtr` into
this group's array. -/
def find_value_by_name (env : Env) (src : statsfs_value_source)
    (name : String) : Option VPtr :=
  (find_index_by_name name (env.arrays src.values)).map
    (fun i => { arr := src.values, idx := i })

/-- `search_in_source_by_name`: first group whose array has an entry with
the given name. -/
def search_by_name_in_list (env : Env) (name : String) :
    List statsfs_value_source → Option VPtr
  | [] => none
  | src_entry :: rest =>
      match find_value_by_name env src_entry name with
      | some entry => some entry
      | none => search_by_name_in_list env name rest

def search_in_source_by_name (env : Env) (src : Source) (name : String) :
    Option VPtr :=
  search_by_name_in_list env name src.values_head

/-- `statsfs_source_get_value_by_name`. -/
def statsfs_source_get_value_by_name (env : Env) (mem : Mem) (source : Source)
    (name : String) : Int × Nat :=
  match search_in_source_by_name env source name with
  | none => (-ENOENT, 0)
  | some val => statsfs_source_get_value_locked env mem source (some val)

/-- `create_value_source`: `kzalloc` result modelled by the `allocOk` flag
(and the fresh struct's address by `gid`); on failure the C returns
`ERR_PTR(-ENOMEM)`. -/
def create_value_source (allocOk : Bool) (gid : Nat) (base : Option Nat) :
    Except Int statsfs_value_source :=
  if allocOk then .ok { gid := gid, base_addr := base, values := 0 }
  else .error (-ENOMEM)

/-- `statsfs_source_add_values`.  The C code never checks `IS_ERR` on
`create_value_source`'s result: when allocation fails it writes
`val_src->values = stat` through `ERR_PTR(-ENOMEM)` — an invalid memory
access, modelled here as `none` (no defined result). -/
def statsfs_source_add_values (allocOk : Bool) (gid : Nat) (source : Source)
    (stat : Nat) (ptr : Option Nat) : Option (Int × Source) :=
  match source with
  | .node n groups subs =>
      if groups.any (fun entry =>
          entry.base_addr == ptr && entry.values == stat) then
        some (-EEXIST, .node n groups subs)
      else
        match create_value_source allocOk gid ptr with
        | .error _ => none
        | .ok val_src =>
            some (0, .node n ({ val_src with values := stat } :: groups) subs)

/-- `statsfs_source_add_subordinate`: take a refcount on the child and
prepend it to the subordinate list. -/
def statsfs_source_add_subordinate (source : Source) (sub : Source) : Source :=
  match source with
  | .node n groups subs => .node n groups (sub :: subs)

/-- `statsfs_source_remove_subordinate`: the C unlinks the list entry that
is pointer-identical to `sub`; pointer identity picks one position in the
list, modelled by its index. -/
def statsfs_source_remove_subordinate (source : Source) (i : Nat) : Source :=
  match source with
  | .node n groups subs => .node n groups (subs.eraseIdx i)

/-- `statsfs_source_revoke`: NULL the base of every value group of this
source (subordinates untouched). -/
def statsfs_source_revoke (source : Source) : Source :=
  match source with
  | .node n groups subs =>
      .node n (groups.map fun g => { g with base_addr := none }) subs

mutual

/-- All value groups of a source tree. -/
def allGroups : Source → List statsfs_value_source
  | .node _ groups subs => groups ++ allGroupsL subs

def allGroupsL : List Source → List statsfs_value_source
  | [] => []
  | c :: cs => allGroups c ++ allGroupsL cs

end

/-- Path from the root to a source inside the tree (child indices). -/
def RegPath : Type := List Nat

mutual

/-- Apply an update to the source reached by the path (identity when the
path leaves the tree). -/
def applyAt : RegPath → (Source → Source) → Source → Source
  | [], f, s => f s
  | i :: rest, f, .node n groups subs => .node n groups (applyAtL i rest f subs)

def applyAtL : Nat → RegPath → (Source → Source) → List Source → List Source
  | _, _, _, [] => []
  | 0, rest, f, c :: cs => applyAt rest f c :: cs
  | i + 1, rest, f, c :: cs => c :: applyAtL i rest f cs

end

/-- The source reached by a path, if any. -/
def sourceAt : RegPath → Source → Option Source
  | [], s => some s
  | i :: rest, .node _ _ subs =>
      match subs.get? i with
      | none => none
      | some c => sourceAt rest c

/-- The registry operations of the public API, each aimed at the source
reached by a path in the tree. -/
inductive RegistryOp where
  | addValues (p : RegPath) (gid : Nat) (stat : Nat) (ptr : Option Nat)
  | addSubordinate (p : RegPath) (child : Source)
  | removeSubordinate (p : RegPath) (i : Nat)
  | revoke (p : RegPath)
  | getValue (p : RegPath) (arg : Option VPtr)
  | clear (p : RegPath) (arg : Option VPtr)

/-- Effect of one registry operation on the tree and the backing memory
(successful allocations; `getValue` mutates nothing). -/
def step (env : Env) (st : Source × Mem) (op : RegistryOp) : Source × Mem :=
  match op with
  | .addValues p gid stat ptr =>
      (applyAt p
        (fun t => ((statsfs_source_add_values true gid t stat ptr).getD
          (0, t)).2) st.1, st.2)
  | .addSubordinate p child =>
      (applyAt p (fun t => statsfs_source_add_subordinate t child) st.1, st.2)
  | .removeSubordinate p i =>
      (applyAt p (fun t => statsfs_source_remove_subordinate t i) st.1, st.2)
  | .revoke p => (applyAt p statsfs_source_revoke st.1, st.2)
  | .getValue _ _ => st
  | .clear p arg =>
      match sourceAt p st.1 with
      | none => st
      | some t => (st.1, (statsfs_source_clear_locked env st.2 t arg).2)

def runOps (env : Env) (st : Source × Mem) (ops : List RegistryOp) :
    Source × Mem :=
  ops.foldl (step env) st

def STATSFS_S8 : Nat := STATSFS_U8 ||| STATSFS_SIGN
def STATSFS_S16 : Nat := STATSFS_U16 ||| STATSFS_SIGN
def STATSFS_S32 : Nat := STATSFS_U32 ||| STATSFS_SIGN
def STATSFS_S64 : Nat := STATSFS_U64 ||| STATSFS_SIGN

/-! Helper lemmas. -/

theorem loadLE_lt (mem : Mem) : ∀ (n addr : Nat), loadLE mem addr n < 2 ^ (8 * n)
  | 0, _ => by simp [loadLE]
  | n + 1, addr => by
    have ih := loadLE_lt mem n (addr + 1)
    have hb : mem addr % 256 < 256 := Nat.mod_lt _ (by norm_num)
    have hp : 2 ^ (8 * (n + 1)) = 256 * 2 ^ (8 * n) := by
      rw [Nat.mul_succ, pow_add]; ring
    simp only [loadLE]
    omega

theorem as_signed_s64_of_int (i : Int) (h1 : -(2 ^ 63) ≤ i) (h2 : i < 2 ^ 63) :
    as_signed 64 (s64_of_int i) = i := by
  unfold as_signed s64_of_int
  split <;> omega

/-! Memory used by several concrete instantiations. -/

def memZero : Mem := fun _ => 0

/-! Concrete instantiation for claim C2: a source whose single value group
carries five signed-64-bit descriptors (one per aggregation rule), then
fully revoked. -/

def envRevoked : Env where
  arrays a :=
    match a with
    | 0 => [{ name := "sum64", offset := 0, type := 32771, aggr_kind := 1 },
            { name := "min64", offset := 8, type := 32771, aggr_kind := 2 },
            { name := "max64", offset := 16, type := 32771, aggr_kind := 3 },
            { name := "cz64", offset := 24, type := 32771, aggr_kind := 4 },
            { name := "avg64", offset := 32, type := 32771, aggr_kind := 5 }]
    | _ => []

def srcRevoked : Source :=
  statsfs_source_revoke (.node "vm" [⟨1, some 100, 0⟩] [])

/-- Claim C2: FALSE on the code for Min and signed Max.  After revoking
the whole subtree, Sum, CountZero and Avg do return (0, 0), but
`store_final_value` stores `agg->min` / `agg->max` without checking
`agg->count`, so a signed Min descriptor yields INT64_MAX
(9223372036854775807) and a signed Max descriptor yields the INT64_MIN
bit pattern (2^63), contradicting the claim (and the header's own
documentation of `statsfs_source_revoke`: "The sources will return 0"). -/
theorem claim_C2_code_bug :
    srcRevoked = Source.node "vm" [⟨1, none, 0⟩] [] ∧
    statsfs_source_get_value envRevoked memZero srcRevoked (some ⟨0, 1⟩)
      = (0, 9223372036854775807) ∧
    statsfs_source_get_value envRevoked memZero srcRevoked (some ⟨0, 2⟩)
      = (0, 9223372036854775808) ∧
    statsfs_source_get_value envRevoked memZero srcRevoked (some ⟨0, 0⟩)
      = (0, 0) ∧
    statsfs_source_get_value envRevoked memZero srcRevoked (some ⟨0, 3⟩)
      = (0, 0) ∧
    statsfs_source_get_value envRevoked memZero srcRevoked (some ⟨0, 4⟩)
      = (0, 0) ∧
    (9223372036854775807 : Nat) ≠ 0 :=
  ⟨rfl, by decide, by decide, by decide, by decide, by decide, by decide⟩

/-- Claim C8: the claim is right and the code is wrong.
`create_value_source` does produce `-ENOMEM` on allocation failure, but
`statsfs_source_add_values` never checks `IS_ERR` on the result: it
dereferences the error pointer (`val_src->values = stat`, then
`list_add`), an invalid memory access (modelled as `none`), instead of
surfacing `-ENOMEM` with the list unchanged. -/
theorem claim_C8_code_bug :
    create_value_source false 0 (some 4) = .error (-ENOMEM) ∧
    statsfs_source_add_values false 7 (.node "kvm" [] []) 0 (some 4) = none :=
  ⟨rfl, rfl⟩

/-- Claim C10: for every source, `get_value` with a NULL descriptor
returns `-ENOENT` with `*ret = 0`, and `clear` with a NULL descriptor
returns `-ENOENT` with the backing memory unchanged (neither touches any
source state). -/
theorem claim_C10_null_descriptor (env : Env) (mem : Mem) (source : Source) :
    statsfs_source_get_value env mem source none = (-ENOENT, 0) ∧
    statsfs_source_clear env mem source none = (-ENOENT, mem) :=
  ⟨rfl, rfl⟩

/-! Concrete instantiations shared by several witnesses: a u64 Sum
descriptor with leaves 10 and 32, and an s32 Sum descriptor with leaves
-5 and 3. -/

def envSum : Env where
  arrays a :=
    match a with
    | 0 => [{ name := "n", offset := 0, type := 3, aggr_kind := 1 }]
    | _ => []

def memLeaves : Mem := fun a => if a = 100 then 10 else if a = 200 then 32 else 0

def envS32 : Env where
  arrays a :=
    match a with
    | 0 => [{ name := "sgn", offset := 0, type := 32770, aggr_kind := 1 }]
    | _ => []

def descS32A : statsfs_value :=
  { name := "sgn", offset := 0, type := 32770, aggr_kind := 1 }

def memS32 : Mem := fun a =>
  if a = 100 then 0xFB else if a = 101 ∨ a = 102 ∨ a = 103 then 0xFF
  else if a = 200 then 3 else 0

def srcS32 : Source :=
  .node "p" [⟨1, none, 0⟩]
    [.node "c1" [⟨2, some 100, 0⟩] [], .node "c2" [⟨3, some 200, 0⟩] []]

/-- `get_simple_value` with the descriptor-kind constants folded to
numerals and the base pointer substituted. -/
theorem get_simple_value_eq (mem : Mem) (g : statsfs_value_source) (b : Nat)
    (val : statsfs_value) (hb : g.base_addr = some b) :
    get_simple_value mem g val =
      (if val.type = 0 then loadLE mem (b + val.offset) 1
       else if val.type = 32768 then
         s64_of_int (as_signed 8 (loadLE mem (b + val.offset) 1))
       else if val.type = 1 then loadLE mem (b + val.offset) 2
       else if val.type = 32769 then
         s64_of_int (as_signed 16 (loadLE mem (b + val.offset) 2))
       else if val.type = 2 then loadLE mem (b + val.offset) 4
       else if val.type = 32770 then
         s64_of_int (as_signed 32 (loadLE mem (b + val.offset) 4))
       else if val.type = 3 then loadLE mem (b + val.offset) 8
       else if val.type = 32771 then
         s64_of_int (as_signed 64 (loadLE mem (b + val.offset) 8))
       else if val.type = 4 then loadLE mem (b + val.offset) 1
       else 0) := by
  unfold get_simple_value
  rw [hb]
  rfl

/-- Sign-extension round-trip: re-reading the converted `u64` as a signed
64-bit value recovers the signed w-bit value. -/
theorem as_signed_roundtrip (w v : Nat)
    (hw : w = 8 ∨ w = 16 ∨ w = 32 ∨ w = 64) (hv : v < 2 ^ w) :
    as_signed 64 (s64_of_int (as_signed w v)) = as_signed w v := by
  apply as_signed_s64_of_int <;>
    rcases hw with h | h | h | h <;> subst h <;>
    unfold as_signed <;> split <;> omega

/-- Claim C7: the leaf read loads the integer of the descriptor's width at
`base + offset`, zero-extends it for unsigned and bool kinds,
sign-extends it for signed kinds (stated as: the 64-bit result denotes
the same signed integer as the w-bit pattern that was loaded), and yields
0 for an unknown kind; consequently a Sum over signed S32 leaves holding
-5 and 3 gives the u64 two's-complement pattern of -2
(18446744073709551614). -/
theorem claim_C7_leaf_read (mem : Mem) (g : statsfs_value_source) (b : Nat)
    (val : statsfs_value) (hb : g.base_addr = some b) :
    ((val.type = STATSFS_U8 →
        get_simple_value mem g val = loadLE mem (b + val.offset) 1) ∧
     (val.type = STATSFS_U16 →
        get_simple_value mem g val = loadLE mem (b + val.offset) 2) ∧
     (val.type = STATSFS_U32 →
        get_simple_value mem g val = loadLE mem (b + val.offset) 4) ∧
     (val.type = STATSFS_U64 →
        get_simple_value mem g val = loadLE mem (b + val.offset) 8) ∧
     (val.type = STATSFS_BOOL →
        get_simple_value mem g val = loadLE mem (b + val.offset) 1) ∧
     (val.type = STATSFS_S8 →
        as_signed 64 (get_simple_value mem g val)
          = as_signed 8 (loadLE mem (b + val.offset) 1)) ∧
     (val.type = STATSFS_S16 →
        as_signed 64 (get_simple_value mem g val)
          = as_signed 16 (loadLE mem (b + val.offset) 2)) ∧
     (val.type = STATSFS_S32 →
        as_signed 64 (get_simple_value mem g val)
          = as_signed 32 (loadLE mem (b + val.offset) 4)) ∧
     (val.type = STATSFS_S64 →
        as_signed 64 (get_simple_value mem g val)
          = as_signed 64 (loadLE mem (b + val.offset) 8)) ∧
     (val.type ∉ ([0, 1, 2, 3, 4, 32768, 32769, 32770, 32771] : List Nat) →
        get_simple_value mem g val = 0)) ∧
    statsfs_source_get_value envS32 memS32 srcS32 (some ⟨0, 0⟩)
      = (0, 18446744073709551614) := by
  refine ⟨⟨?_, ?_, ?_, ?_, ?_, ?_, ?_, ?_, ?_, ?_⟩, by decide⟩ <;> intro h
  · have h' : val.type = 0 := h
    rw [get_simple_value_eq mem g b val hb, h']
    norm_num
  · have h' : val.type = 1 := h
    rw [get_simple_value_eq mem g b val hb, h']
    norm_num
  · have h' : val.type = 2 := h
    rw [get_simple_value_eq mem g b val hb, h']
    norm_num
  · have h' : val.type = 3 := h
    rw [get_simple_value_eq mem g b val hb, h']
    norm_num
  · have h' : val.type = 4 := h
    rw [get_simple_value_eq mem g b val hb, h']
    norm_num
  · have h' : val.type = 32768 := h
    rw [get_simple_value_eq mem g b val hb, h']
    norm_num
    exact as_signed_roundtrip 8 _ (by norm_num)
      (by simpa using loadLE_lt mem 1 (b + val.offset))
  · have h' : val.type = 32769 := h
    rw [get_simple_value_eq mem g b val hb, h']
    norm_num
    exact as_signed_roundtrip 16 _ (by norm_num)
      (by simpa using loadLE_lt mem 2 (b + val.offset))
  · have h' : val.type = 32770 := h
    rw [get_simple_value_eq mem g b val hb, h']
    norm_num
    exact as_signed_roundtrip 32 _ (by norm_num)
      (by simpa using loadLE_lt mem 4 (b + val.offset))
  · have h' : val.type = 32771 := h
    rw [get_simple_value_eq mem g b val hb, h']
    rw [if_neg (by norm_num), if_neg (by norm_num), if_neg (by norm_num),
      if_neg (by norm_num), if_neg (by norm_num), if_neg (by norm_num),
      if_neg (by norm_num), if_pos rfl]
    exact as_signed_roundtrip 64 _ (by norm_num)
      (by simpa using loadLE_lt mem 8 (b + val.offset))
  · rw [get_simple_value_eq mem g b val hb]
    have hne : ∀ k : Nat, k ∈ ([0, 1, 2, 3, 4, 32768, 32769, 32770,
        32771] : List Nat) → val.type ≠ k := by
      intro k hk hc
      exact h (hc ▸ hk)
    rw [if_neg (hne 0 (by simp)), if_neg (hne 32768 (by simp)),
      if_neg (hne 1 (by simp)), if_neg (hne 32769 (by simp)),
      if_neg (hne 2 (by simp)), if_neg (hne 32770 (by simp)),
      if_neg (hne 3 (by simp)), if_neg (hne 32771 (by simp)),
      if_neg (hne 4 (by simp))]

/-- Witness for claim C7 at a concrete input: the S32 leaf at base 100 of
`memS32` holds the bit pattern of -5, and the two-leaf Sum gives the u64
pattern of -2. -/
theorem claim_C7_witness :
    (as_signed 64 (get_simple_value memS32 ⟨2, some 100, 0⟩ descS32A)
        = as_signed 32 (loadLE memS32 (100 + descS32A.offset) 4)) ∧
    statsfs_source_get_value envS32 memS32 srcS32 (some ⟨0, 0⟩)
      = (0, 18446744073709551614) := by
  have h := claim_C7_leaf_read memS32 ⟨2, some 100, 0⟩ 100 descS32A rfl
  exact ⟨h.1.2.2.2.2.2.2.2.1 rfl, h.2⟩

/-- Claim C3: if the first value group of the starting source matching the
queried descriptor has a non-NULL base, `get_value` returns that single
leaf reading directly and never recurses into subordinates (the result is
the same for every subordinate list), regardless of the descriptor's
aggregation rule. -/
theorem claim_C3_simple_case (env : Env) (mem : Mem) (n : String)
    (groups : List statsfs_value_source) (d : VPtr) (found : statsfs_value)
    (src_entry : statsfs_value_source) (b : Nat)
    (hsearch : search_value_in_list env d groups = some (found, src_entry))
    (hbase : src_entry.base_addr = some b) :
    ∀ subs : List Source,
      statsfs_source_get_value env mem (.node n groups subs) (some d)
        = (0, get_simple_value mem src_entry found) := by
  intro subs
  unfold statsfs_source_get_value statsfs_source_get_value_locked
    search_value_in_source
  simp [Source.values_head, hsearch, hbase]

/-- Witness for claim C3: the root has its own leaf (value 10); the result
ignores the subordinate leaf holding 32. -/
theorem claim_C3_witness :
    search_value_in_list envSum ⟨0, 0⟩ [⟨1, some 100, 0⟩]
        = some ({ name := "n", offset := 0, type := 3, aggr_kind := 1 },
                ⟨1, some 100, 0⟩) ∧
    statsfs_source_get_value envSum memLeaves
        (.node "v" [⟨1, some 100, 0⟩] [.node "c" [⟨2, some 200, 0⟩] []])
        (some ⟨0, 0⟩)
      = (0, 10) := by
  constructor
  · rfl
  · have h := claim_C3_simple_case envSum memLeaves "v" [⟨1, some 100, 0⟩]
      ⟨0, 0⟩ { name := "n", offset := 0, type := 3, aggr_kind := 1 }
      ⟨1, some 100, 0⟩ 100 rfl rfl [.node "c" [⟨2, some 200, 0⟩] []]
    rw [h]
    decide

/-! Specification-side definitions for claim C1: the readings of the
value groups in a subtree whose descriptor-array pointer equals the
reference group's array and whose base is non-NULL. -/

def group_readings (mem : Mem) (refValues : Nat) (val : statsfs_value)
    (l : List statsfs_value_source) : List Nat :=
  l.filterMap fun g =>
    if g.base_addr ≠ none ∧ g.values = refValues then
      some (get_simple_value mem g val)
    else none

mutual

def tree_readings (mem : Mem) (refValues : Nat) (val : statsfs_value) :
    Source → List Nat
  | .node _ groups subs =>
      group_readings mem refValues val groups ++
        tree_readings_list mem refValues val subs

def tree_readings_list (mem : Mem) (refValues : Nat) (val : statsfs_value) :
    List Source → List Nat
  | [] => []
  | c :: cs =>
      tree_readings mem refValues val c ++ tree_readings_list mem refValues val cs

end

/-- `is_val_signed` returns either 0 or the sign bit 0x8000. -/
theorem is_val_signed_cases (val : statsfs_value) :
    is_val_signed val = 0 ∨ is_val_signed val = 32768 := by
  unfold is_val_signed STATSFS_SIGN
  have h : (0x8000 : Nat) = 2 ^ 15 := by norm_num
  rw [h, Nat.and_two_pow]
  cases val.type.testBit 15 <;> simp

theorem fold_agg_eq_of_not (mem : Mem) (ref : statsfs_value_source)
    (val : statsfs_value) (agg : statsfs_aggregate_value)
    (g : statsfs_value_source)
    (hm : ¬(g.base_addr ≠ none ∧ g.values = ref.values)) :
    fold_agg mem ref val agg g = agg := by
  unfold fold_agg
  by_cases h1 : g.base_addr = none
  · simp [h1]
  · have h2 : g.values ≠ ref.values := by tauto
    simp [h1, h2]

theorem fold_agg_sum_of (mem : Mem) (ref : statsfs_value_source)
    (val : statsfs_value) (agg : statsfs_aggregate_value)
    (g : statsfs_value_source) (h1 : g.base_addr ≠ none)
    (h2 : g.values = ref.values) :
    (fold_agg mem ref val agg g).sum
      = (agg.sum + get_simple_value mem g val) % 2 ^ 64 := by
  unfold fold_agg
  simp only [h1, h2, ite_true, ite_false, if_neg, ne_eq, not_true_eq_false,
    not_false_eq_true]
  split <;> simp [h1]

theorem foldl_fold_agg_sum (mem : Mem) (ref : statsfs_value_source)
    (val : statsfs_value) :
    ∀ (l : List statsfs_value_source) (agg : statsfs_aggregate_value),
      agg.sum < 2 ^ 64 →
      (l.foldl (fold_agg mem ref val) agg).sum
        = (agg.sum + (group_readings mem ref.values val l).sum) % 2 ^ 64
  | [], agg, h => by
      simp [group_readings]
      omega
  | g :: rest, agg, h => by
      rw [List.foldl_cons]
      by_cases hm : g.base_addr ≠ none ∧ g.values = ref.values
      · have h1 : (fold_agg mem ref val agg g).sum
            = (agg.sum + get_simple_value mem g val) % 2 ^ 64 :=
          fold_agg_sum_of mem ref val agg g hm.1 hm.2
        have hlt : (fold_agg mem ref val agg g).sum < 2 ^ 64 := by
          rw [h1]; exact Nat.mod_lt _ (by norm_num)
        rw [foldl_fold_agg_sum mem ref val rest _ hlt, h1, Nat.mod_add_mod]
        have hr : group_readings mem ref.values val (g :: rest)
            = get_simple_value mem g val :: group_readings mem ref.values val rest := by
          simp [group_readings, List.filterMap_cons, hm.1, hm.2]
        rw [hr, List.sum_cons, Nat.add_assoc]
      · rw [fold_agg_eq_of_not mem ref val agg g hm,
          foldl_fold_agg_sum mem ref val rest agg h]
        have hr : group_readings mem ref.values val (g :: rest)
            = group_readings mem ref.values val rest := by
          simp only [group_readings, List.filterMap_cons, if_neg hm]
        rw [hr]

mutual

theorem do_recursive_aggregation_sum (mem : Mem) (ref : statsfs_value_source)
    (val : statsfs_value) :
    ∀ (t : Source) (agg : statsfs_aggregate_value), agg.sum < 2 ^ 64 →
      (do_recursive_aggregation mem ref val t agg).sum
        = (agg.sum + (tree_readings mem ref.values val t).sum) % 2 ^ 64
  | .node n groups subs, agg, h => by
      rw [do_recursive_aggregation]
      have hs : (search_all_simple_values mem (Source.node n groups subs)
          ref val agg).sum
          = (agg.sum + (group_readings mem ref.values val groups).sum)
              % 2 ^ 64 := by
        unfold search_all_simple_values
        exact foldl_fold_agg_sum mem ref val groups agg h
      have hlt : (search_all_simple_values mem (Source.node n groups subs)
          ref val agg).sum < 2 ^ 64 := by
        rw [hs]; exact Nat.mod_lt _ (by norm_num)
      rw [aggregate_subordinates_sum mem ref val subs _ hlt, hs,
        Nat.mod_add_mod]
      show _ = (agg.sum + (tree_readings mem ref.values val
        (Source.node n groups subs)).sum) % 2 ^ 64
      rw [tree_readings, List.sum_append, Nat.add_assoc]

theorem aggregate_subordinates_sum (mem : Mem) (ref : statsfs_value_source)
    (val : statsfs_value) :
    ∀ (l : List Source) (agg : statsfs_aggregate_value), agg.sum < 2 ^ 64 →
      (aggregate_subordinates mem ref val l agg).sum
        = (agg.sum + (tree_readings_list mem ref.values val l).sum) % 2 ^ 64
  | [], agg, h => by
      rw [aggregate_subordinates, tree_readings_list]
      simp
      omega
  | c :: cs, agg, h => by
      rw [aggregate_subordinates]
      have h1 := do_recursive_aggregation_sum mem ref val c agg h
      have hlt : (do_recursive_aggregation mem ref val c agg).sum < 2 ^ 64 := by
        rw [h1]; exact Nat.mod_lt _ (by norm_num)
      rw [aggregate_subordinates_sum mem ref val cs _ hlt, h1, Nat.mod_add_mod,
        tree_readings_list, List.sum_append, Nat.add_assoc]

end

theorem init_aggregate_value_sum (val : statsfs_value) :
    (init_aggregate_value val).sum = 0 := by
  unfold init_aggregate_value
  split <;> rfl

/-- `store_final_value` with the operation-dispatch constants folded to
numerals. -/
theorem store_final_value_eq (agg : statsfs_aggregate_value)
    (val : statsfs_value) (ret : Nat) :
    store_final_value agg val ret =
      (if val.aggr_kind ||| is_val_signed val = 5 then
         if agg.count ≠ 0 then agg.sum / agg.count else 0
       else if val.aggr_kind ||| is_val_signed val = 32773 then
         if agg.count ≠ 0 then
           s64_of_int
             (let s := as_signed 64 agg.sum
              if 0 ≤ s then s / (agg.count : Int)
              else -((-s) / (agg.count : Int)))
         else 0
       else if val.aggr_kind ||| is_val_signed val = 1 ∨
           val.aggr_kind ||| is_val_signed val = 32769 then agg.sum
       else if val.aggr_kind ||| is_val_signed val = 2 ∨
           val.aggr_kind ||| is_val_signed val = 32770 then agg.min
       else if val.aggr_kind ||| is_val_signed val = 3 ∨
           val.aggr_kind ||| is_val_signed val = 32771 then agg.max
       else if val.aggr_kind ||| is_val_signed val = 4 ∨
           val.aggr_kind ||| is_val_signed val = 32772 then agg.count_zero
       else ret) := rfl

/-- `store_final_value` for a Sum descriptor stores the accumulated sum,
for both the signed and the unsigned variant. -/
theorem store_final_value_sum (agg : statsfs_aggregate_value)
    (val : statsfs_value) (ret : Nat) (haggr : val.aggr_kind = STATSFS_SUM) :
    store_final_value agg val ret = agg.sum := by
  rw [store_final_value_eq]
  rcases is_val_signed_cases val with h | h
  · have hop : val.aggr_kind ||| is_val_signed val = 1 := by rw [haggr, h]; rfl
    rw [hop]
    norm_num
  · have hop : val.aggr_kind ||| is_val_signed val = 32769 := by
      rw [haggr, h]; rfl
    rw [hop]
    norm_num

/-- Claim C1: for a Sum descriptor whose matching group at the starting
source is a placeholder (NULL base), `get_value` returns code 0 together
with the wrapping u64 sum of the readings of every value group in the
subtree whose descriptor-array pointer equals the reference group's
array and whose base is non-NULL (groups over other arrays excluded). -/
theorem claim_C1_sum_aggregation (env : Env) (mem : Mem) (s : Source)
    (d : VPtr) (found : statsfs_value) (src_entry : statsfs_value_source)
    (hsearch : search_value_in_source env s d = some (found, src_entry))
    (hbase : src_entry.base_addr = none)
    (haggr : found.aggr_kind = STATSFS_SUM) :
    statsfs_source_get_value env mem s (some d)
      = (0, (tree_readings mem src_entry.values found s).sum % 2 ^ 64) := by
  unfold statsfs_source_get_value statsfs_source_get_value_locked
  simp only [hsearch, hbase]
  simp only [ne_eq, not_true_eq_false, ite_false, if_neg, Prod.mk.injEq,
    not_false_eq_true, true_and]
  rw [store_final_value_sum _ _ _ haggr,
    do_recursive_aggregation_sum mem src_entry found s _
      (by rw [init_aggregate_value_sum]; norm_num),
    init_aggregate_value_sum]
  simp

def descSum : statsfs_value :=
  { name := "n", offset := 0, type := 3, aggr_kind := 1 }

def srcSum : Source :=
  .node "p" [⟨1, none, 0⟩]
    [.node "c1" [⟨2, some 100, 0⟩] [], .node "c2" [⟨3, some 200, 0⟩] []]

/-- Witness for claim C1: a placeholder at the root over two u64 leaves
holding 10 and 32; the aggregate Sum is 42. -/
theorem claim_C1_witness :
    search_value_in_source envSum srcSum ⟨0, 0⟩
        = some (descSum, ⟨1, none, 0⟩) ∧
    statsfs_source_get_value envSum memLeaves srcSum (some ⟨0, 0⟩)
      = (0, 42) ∧
    (tree_readings memLeaves 0 descSum srcSum).sum % 2 ^ 64 = 42 := by
  refine ⟨rfl, ?_, by decide⟩
  have h := claim_C1_sum_aggregation envSum memLeaves srcSum ⟨0, 0⟩ descSum
    ⟨1, none, 0⟩ rfl rfl rfl
  rw [h]
  decide

/-- Claim C4 as frozen is FALSE: it quantifies over every source `s`, but
if `s` already holds a group with the pair `(d, b)` then the first of the
two calls already returns `-EEXIST`, not 0. -/
theorem claim_C4_counterexample :
    statsfs_source_add_values true 5
        (.node "s" [⟨1, some 4, 2⟩] []) 2 (some 4)
      = some (-17, .node "s" [⟨1, some 4, 2⟩] []) ∧
    ((-17 : Int) ≠ 0) :=
  ⟨rfl, by decide⟩

/-- Claim C4, amended: for every source with no value group carrying the
pair `(d, b)` yet, calling `add_values` twice returns 0 then `-EEXIST`,
exactly one group with that pair is in the list afterwards (prepended),
and the failing call leaves the source unchanged. -/
theorem claim_C4_duplicate_rejection (n : String)
    (groups : List statsfs_value_source) (subs : List Source)
    (g1 g2 stat : Nat) (ptr : Option Nat)
    (hno : ∀ g ∈ groups, ¬(g.base_addr = ptr ∧ g.values = stat)) :
    ∃ s' : Source,
      s' = .node n (⟨g1, ptr, stat⟩ :: groups) subs ∧
      statsfs_source_add_values true g1 (.node n groups subs) stat ptr
        = some (0, s') ∧
      statsfs_source_add_values true g2 s' stat ptr = some (-EEXIST, s') ∧
      (s'.values_head.filter fun g =>
          g.base_addr == ptr && g.values == stat).length = 1 := by
  have hfalse : ∀ g ∈ groups,
      (g.base_addr == ptr && g.values == stat) = false := by
    intro g hg
    rw [Bool.eq_false_iff]
    intro hc
    rw [Bool.and_eq_true, beq_iff_eq, beq_iff_eq] at hc
    exact hno g hg hc
  have hany : (groups.any fun entry =>
      entry.base_addr == ptr && entry.values == stat) = false := by
    rw [List.any_eq_false]
    intro g hg
    simp [hfalse g hg]
  have hnil : groups.filter
      (fun g => g.base_addr == ptr && g.values == stat) = [] := by
    rw [List.filter_eq_nil_iff]
    intro g hg
    simp [hfalse g hg]
  refine ⟨.node n (⟨g1, ptr, stat⟩ :: groups) subs, rfl, ?_, ?_, ?_⟩
  · simp [statsfs_source_add_values, create_value_source, hany]
  · simp [statsfs_source_add_values, List.any_cons]
  · show (List.filter _ (⟨g1, ptr, stat⟩ :: groups)).length = 1
    rw [List.filter_cons]
    simp [hnil]

/-- Witness for claim C4 (amended) at a concrete input: a fresh source,
two identical attaches. -/
theorem claim_C4_witness :
    statsfs_source_add_values true 1 (.node "s" [] []) 0 (some 4)
      = some (0, .node "s" [⟨1, some 4, 0⟩] []) ∧
    statsfs_source_add_values true 2 (.node "s" [⟨1, some 4, 0⟩] []) 0 (some 4)
      = some (-EEXIST, .node "s" [⟨1, some 4, 0⟩] []) := by
  obtain ⟨s', hs, h1, h2, h3⟩ :=
    claim_C4_duplicate_rejection "s" [] [] 1 2 0 (some 4) (by simp)
  rw [hs] at h1 h2
  exact ⟨h1, h2⟩

/-! Lemmas about the by-name search used for claim C5. -/

theorem find_index_by_name_some (nm : String) :
    ∀ (l : List statsfs_value) (i : Nat), find_index_by_name nm l = some i →
      ∃ e, l.get? i = some e ∧ e.name = nm
  | [], i, h => by simp [find_index_by_name] at h
  | e :: rest, i, h => by
      unfold find_index_by_name at h
      by_cases he : e.name = nm
      · rw [if_pos he] at h
        cases h
        exact ⟨e, rfl, he⟩
      · rw [if_neg he] at h
        obtain ⟨j, hj, rfl⟩ := Option.map_eq_some'.mp h
        obtain ⟨e', he', hn⟩ := find_index_by_name_some nm rest j hj
        exact ⟨e', by simpa [List.get?] using he', hn⟩

theorem find_index_by_name_none (nm : String) :
    ∀ (l : List statsfs_value), find_index_by_name nm l = none →
      ∀ e ∈ l, e.name ≠ nm
  | [], _, e, he => by simp at he
  | e0 :: rest, h, e, he => by
      unfold find_index_by_name at h
      by_cases h0 : e0.name = nm
      · rw [if_pos h0] at h
        cases h
      · rw [if_neg h0] at h
        rcases List.mem_cons.mp he with rfl | hmem
        · exact h0
        · exact find_index_by_name_none nm rest
            (by cases hfi : find_index_by_name nm rest
                · rfl
                · rw [hfi] at h; simp at h)
            e hmem

theorem find_index_by_name_isSome (nm : String) :
    ∀ (l : List statsfs_value), (∃ e ∈ l, e.name = nm) →
      (find_index_by_name nm l).isSome
  | [], h => by simp at h
  | e0 :: rest, h => by
      unfold find_index_by_name
      by_cases h0 : e0.name = nm
      · rw [if_pos h0]; rfl
      · rw [if_neg h0]
        obtain ⟨e, he, hn⟩ := h
        rcases List.mem_cons.mp he with rfl | hmem
        · exact absurd hn h0
        · have := find_index_by_name_isSome nm rest ⟨e, hmem, hn⟩
          simpa [Option.isSome_map] using this

theorem search_by_name_some (env : Env) (nm : String) :
    ∀ (l : List statsfs_value_source) (v : VPtr),
      search_by_name_in_list env nm l = some v →
      ∃ g ∈ l, v.arr = g.values ∧
        ∃ e, (env.arrays g.values).get? v.idx = some e ∧ e.name = nm
  | [], v, h => by simp [search_by_name_in_list] at h
  | g :: rest, v, h => by
      rw [search_by_name_in_list] at h
      cases hf : find_value_by_name env g nm with
      | some w =>
          rw [hf] at h
          cases h
          obtain ⟨i, hi, rfl⟩ := Option.map_eq_some'.mp hf
          obtain ⟨e, he, hn⟩ := find_index_by_name_some nm _ i hi
          exact ⟨g, List.mem_cons_self _ _, rfl, e, he, hn⟩
      | none =>
          rw [hf] at h
          obtain ⟨g', hg', harr, e, he, hn⟩ :=
            search_by_name_some env nm rest v h
          exact ⟨g', List.mem_cons_of_mem _ hg', harr, e, he, hn⟩

theorem search_by_name_none (env : Env) (nm : String) :
    ∀ (l : List statsfs_value_source),
      search_by_name_in_list env nm l = none →
      ∀ g ∈ l, ∀ e ∈ env.arrays g.values, e.name ≠ nm
  | [], _, g, hg => by simp at hg
  | g0 :: rest, h, g, hg => by
      rw [search_by_name_in_list] at h
      cases hf : find_value_by_name env g0 nm with
      | some w => rw [hf] at h; cases h
      | none =>
          rw [hf] at h
          rcases List.mem_cons.mp hg with rfl | hmem
          · intro e he
            apply find_index_by_name_none nm (env.arrays g.values) _ e he
            unfold find_value_by_name at hf
            cases hfi : find_index_by_name nm (env.arrays g.values)
            · rfl
            · rw [hfi] at hf; simp at hf
          · exact search_by_name_none env nm rest h g hmem

theorem search_by_name_isSome (env : Env) (nm : String) :
    ∀ (l : List statsfs_value_source),
      (∃ g ∈ l, ∃ e ∈ env.arrays g.values, e.name = nm) →
      (search_by_name_in_list env nm l).isSome
  | [], h => by simp at h
  | g0 :: rest, h => by
      rw [search_by_name_in_list]
      cases hf : find_value_by_name env g0 nm with
      | some w => rfl
      | none =>
          apply search_by_name_isSome env nm rest
          obtain ⟨g, hg, e, he, hn⟩ := h
          rcases List.mem_cons.mp hg with rfl | hmem
          · exfalso
            have := find_index_by_name_isSome nm (env.arrays g.values)
              ⟨e, he, hn⟩
            unfold find_value_by_name at hf
            cases hfi : find_index_by_name nm (env.arrays g.values)
            · rw [hfi] at this; simp at this
            · rw [hfi] at hf; simp at hf
          · exact ⟨g, hmem, e, he, hn⟩

/-- Claim C5: (1) if descriptor `d` is attached to `s` under a name `nm`
that is unique across all of `s`'s descriptor arrays, then
`get_value_by_name(s, nm)` returns exactly what `get_value(s, d)`
returns (same code, same output); (2) if no descriptor in `s`'s value
groups carries the name, `get_value_by_name` returns `-ENOENT` with the
out-parameter 0. -/
theorem claim_C5_name_lookup (env : Env) (mem : Mem) (s : Source)
    (nm : String) (d : VPtr) :
    ((∃ g ∈ s.values_head, g.values = d.arr ∧
        ∃ e, (env.arrays d.arr).get? d.idx = some e ∧ e.name = nm) →
     (∀ g ∈ s.values_head, ∀ (i : Nat) (e : statsfs_value),
        (env.arrays g.values).get? i = some e → e.name = nm →
        g.values = d.arr ∧ i = d.idx) →
     statsfs_source_get_value_by_name env mem s nm
       = statsfs_source_get_value env mem s (some d)) ∧
    ((∀ g ∈ s.values_head, ∀ e ∈ env.arrays g.values, e.name ≠ nm) →
     statsfs_source_get_value_by_name env mem s nm = (-ENOENT, 0)) := by
  constructor
  · intro hattach huniq
    obtain ⟨g0, hg0, hgv, e0, he0, hn0⟩ := hattach
    have hsome : (search_by_name_in_list env nm s.values_head).isSome := by
      apply search_by_name_isSome
      exact ⟨g0, hg0, e0, by rw [hgv]; exact List.get?_mem he0, hn0⟩
    obtain ⟨v, hv⟩ := Option.isSome_iff_exists.mp hsome
    obtain ⟨g, hgmem, harr, e, hge, hname⟩ :=
      search_by_name_some env nm s.values_head v hv
    obtain ⟨hva, hvi⟩ := huniq g hgmem v.idx e hge hname
    have hvd : v = d := by
      cases v
      cases d
      simp only [VPtr.mk.injEq]
      exact ⟨harr.trans hva, hvi⟩
    unfold statsfs_source_get_value_by_name search_in_source_by_name
    rw [hv, hvd]
    rfl
  · intro hnone
    have hs : search_by_name_in_list env nm s.values_head = none := by
      cases hs : search_by_name_in_list env nm s.values_head with
      | none => rfl
      | some v =>
          obtain ⟨g, hg, harr, e, hge, hname⟩ :=
            search_by_name_some env nm s.values_head v hs
          exact absurd hname (hnone g hg e (List.get?_mem hge))
    unfold statsfs_source_get_value_by_name search_in_source_by_name
    rw [hs]

def srcNamed : Source := .node "v" [⟨1, some 100, 0⟩] []

/-- Witness for claim C5 at a concrete input: the unique name "n" resolves
to the attached descriptor, and a missing name gives `(-ENOENT, 0)`. -/
theorem claim_C5_witness :
    statsfs_source_get_value_by_name envSum memLeaves srcNamed "n"
      = statsfs_source_get_value envSum memLeaves srcNamed (some ⟨0, 0⟩) ∧
    statsfs_source_get_value_by_name envSum memLeaves srcNamed "missing"
      = (-ENOENT, 0) := by
  constructor
  · apply (claim_C5_name_lookup envSum memLeaves srcNamed "n" ⟨0, 0⟩).1
    · exact ⟨⟨1, some 100, 0⟩, by simp [srcNamed, Source.values_head], rfl,
        descSum, rfl, rfl⟩
    · intro g hg i e hget hname
      simp only [srcNamed, Source.values_head, List.mem_singleton] at hg
      subst hg
      cases i with
      | zero => exact ⟨rfl, rfl⟩
      | succ j =>
          simp only [List.get?_cons_succ, List.get?_nil] at hget
          exact absurd hget (by simp [envSum])
  · apply (claim_C5_name_lookup envSum memLeaves srcNamed "missing" ⟨0, 0⟩).2
    decide

/-! Claim C9: revocation is monotonic per value group.  A group's heap
identity is its `gid`; `gid_revoked g s` says every group in the tree
with identity `g` has a NULL base. -/

def gid_revoked (g : Nat) (s : Source) : Prop :=
  ∀ vg ∈ allGroups s, vg.gid = g → vg.base_addr = none

/-- The operation does not introduce a value group with heap identity `g`
(a live group's address cannot be returned again by the allocator). -/
def op_fresh (g : Nat) : RegistryOp → Prop
  | .addValues _ gid _ _ => gid ≠ g
  | .addSubordinate _ child => ∀ vg ∈ allGroups child, vg.gid ≠ g
  | _ => True

theorem mem_allGroupsL (vg : statsfs_value_source) :
    ∀ (l : List Source), vg ∈ allGroupsL l ↔ ∃ c ∈ l, vg ∈ allGroups c
  | [] => by simp [allGroupsL]
  | c :: cs => by
      rw [allGroupsL, List.mem_append, mem_allGroupsL vg cs]
      constructor
      · rintro (h | ⟨c', hc', h⟩)
        · exact ⟨c, List.mem_cons_self _ _, h⟩
        · exact ⟨c', List.mem_cons_of_mem _ hc', h⟩
      · rintro ⟨c', hc', h⟩
        rcases List.mem_cons.mp hc' with rfl | hmem
        · exact Or.inl h
        · exact Or.inr ⟨c', hmem, h⟩

theorem gid_revoked_node (g : Nat) (n : String)
    (groups : List statsfs_value_source) (subs : List Source) :
    gid_revoked g (.node n groups subs) ↔
      (∀ vg ∈ groups, vg.gid = g → vg.base_addr = none) ∧
      ∀ c ∈ subs, gid_revoked g c := by
  unfold gid_revoked
  rw [allGroups]
  constructor
  · intro h
    refine ⟨fun vg hvg => h vg (List.mem_append_left _ hvg), ?_⟩
    intro c hc vg hvg
    exact h vg
      (List.mem_append_right _ ((mem_allGroupsL vg subs).mpr ⟨c, hc, hvg⟩))
  · rintro ⟨h1, h2⟩ vg hvg
    rcases List.mem_append.mp hvg with hl | hr
    · exact h1 vg hl
    · obtain ⟨c, hc, hvgc⟩ := (mem_allGroupsL vg subs).mp hr
      exact h2 c hc vg hvgc

theorem mem_applyAtL (f : Source → Source) :
    ∀ (i : Nat) (rest : RegPath) (l : List Source) (c : Source),
      c ∈ applyAtL i rest f l → c ∈ l ∨ ∃ c0 ∈ l, c = applyAt rest f c0
  | i, rest, [], c, h => by simp [applyAtL] at h
  | 0, rest, c0 :: cs, c, h => by
      rw [applyAtL] at h
      rcases List.mem_cons.mp h with rfl | hmem
      · exact Or.inr ⟨c0, List.mem_cons_self _ _, rfl⟩
      · exact Or.inl (List.mem_cons_of_mem _ hmem)
  | i + 1, rest, c0 :: cs, c, h => by
      rw [applyAtL] at h
      rcases List.mem_cons.mp h with rfl | hmem
      · exact Or.inl (List.mem_cons_self _ _)
      · rcases mem_applyAtL f i rest cs c hmem with h' | ⟨c1, hc1, rfl⟩
        · exact Or.inl (List.mem_cons_of_mem _ h')
        · exact Or.inr ⟨c1, List.mem_cons_of_mem _ hc1, rfl⟩

theorem applyAt_gid_revoked (g : Nat) (f : Source → Source)
    (hf : ∀ t, gid_revoked g t → gid_revoked g (f t)) :
    ∀ (p : RegPath) (s : Source),
      gid_revoked g s → gid_revoked g (applyAt p f s)
  | [], s, h => by rw [applyAt]; exact hf s h
  | i :: rest, .node n groups subs, h => by
      rw [applyAt]
      rw [gid_revoked_node] at h ⊢
      refine ⟨h.1, ?_⟩
      intro c hc
      rcases mem_applyAtL f i rest subs c hc with hmem | ⟨c0, hc0, rfl⟩
      · exact h.2 c hmem
      · exact applyAt_gid_revoked g f hf rest c0 (h.2 c0 hc0)

theorem add_values_gid_revoked (g gid stat : Nat) (ptr : Option Nat)
    (hgid : gid ≠ g) (t : Source) (h : gid_revoked g t) :
    gid_revoked g
      (((statsfs_source_add_values true gid t stat ptr).getD (0, t)).2) := by
  cases t with
  | node n groups subs =>
      rw [statsfs_source_add_values]
      split
      · exact h
      · rw [create_value_source]
        simp only [if_pos, ite_true, Option.getD_some]
        rw [gid_revoked_node] at h ⊢
        refine ⟨?_, h.2⟩
        intro vg hvg hg
        rcases List.mem_cons.mp hvg with rfl | hmem
        · exact absurd hg hgid
        · exact h.1 vg hmem hg

theorem add_subordinate_gid_revoked (g : Nat) (child : Source)
    (hchild : ∀ vg ∈ allGroups child, vg.gid ≠ g) (t : Source)
    (h : gid_revoked g t) :
    gid_revoked g (statsfs_source_add_subordinate t child) := by
  cases t with
  | node n groups subs =>
      rw [statsfs_source_add_subordinate]
      rw [gid_revoked_node] at h ⊢
      refine ⟨h.1, ?_⟩
      intro c hc
      rcases List.mem_cons.mp hc with rfl | hmem
      · exact fun vg hvg hg => absurd hg (hchild vg hvg)
      · exact h.2 c hmem

theorem remove_subordinate_gid_revoked (g : Nat) (i : Nat) (t : Source)
    (h : gid_revoked g t) :
    gid_revoked g (statsfs_source_remove_subordinate t i) := by
  cases t with
  | node n groups subs =>
      rw [statsfs_source_remove_subordinate]
      rw [gid_revoked_node] at h ⊢
      exact ⟨h.1, fun c hc => h.2 c (List.mem_of_mem_eraseIdx hc)⟩

theorem revoke_gid_revoked (g : Nat) (t : Source) (h : gid_revoked g t) :
    gid_revoked g (statsfs_source_revoke t) := by
  cases t with
  | node n groups subs =>
      rw [statsfs_source_revoke]
      rw [gid_revoked_node] at h ⊢
      refine ⟨?_, h.2⟩
      intro vg hvg _
      obtain ⟨a, _, rfl⟩ := List.mem_map.mp hvg
      rfl

theorem step_gid_revoked (env : Env) (g : Nat) (st : Source × Mem)
    (op : RegistryOp) (hfresh : op_fresh g op) (h : gid_revoked g st.1) :
    gid_revoked g (step env st op).1 := by
  cases op with
  | addValues p gid stat ptr =>
      exact applyAt_gid_revoked g _
        (add_values_gid_revoked g gid stat ptr hfresh) p st.1 h
  | addSubordinate p child =>
      exact applyAt_gid_revoked g _
        (add_subordinate_gid_revoked g child hfresh) p st.1 h
  | removeSubordinate p i =>
      exact applyAt_gid_revoked g _
        (remove_subordinate_gid_revoked g i) p st.1 h
  | revoke p =>
      exact applyAt_gid_revoked g _ (revoke_gid_revoked g) p st.1 h
  | getValue p a => exact h
  | clear p a =>
      rw [step]
      cases sourceAt p st.1 <;> exact h

theorem runOps_gid_revoked (env : Env) (g : Nat) :
    ∀ (ops : List RegistryOp) (st : Source × Mem),
      (∀ op ∈ ops, op_fresh g op) → gid_revoked g st.1 →
      gid_revoked g (runOps env st ops).1
  | [], _, _, h => h
  | op :: rest, st, hf, h =>
      runOps_gid_revoked env g rest (step env st op)
        (fun o ho => hf o (List.mem_cons_of_mem _ ho))
        (step_gid_revoked env g st op (hf op (List.mem_cons_self _ _)) h)

/-- Claim C9: `revoke(source)` NULLs the base of every value group of
that source, and revocation is monotonic per value group: over any
sequence of registry operations that does not re-allocate the group's
identity, once every group with identity `g` has a NULL base, no
operation ever reinstates a non-NULL base on such a group. -/
theorem claim_C9_revocation_monotonic (env : Env) (mem : Mem) (s : Source)
    (g : Nat) (ops : List RegistryOp)
    (hfresh : ∀ op ∈ ops, op_fresh g op) (hrev : gid_revoked g s) :
    (∀ s' : Source, ∀ vg ∈ (statsfs_source_revoke s').values_head,
        vg.base_addr = none) ∧
    gid_revoked g (runOps env (s, mem) ops).1 := by
  constructor
  · intro s' vg hvg
    cases s' with
    | node n groups subs =>
        rw [statsfs_source_revoke] at hvg
        obtain ⟨a, _, rfl⟩ := List.mem_map.mp hvg
        rfl
  · exact runOps_gid_revoked env g ops (s, mem) hfresh hrev

def srcRevokedGroup : Source := .node "x" [⟨1, none, 0⟩] []

def opsMixed : List RegistryOp :=
  [.addValues [] 2 0 (some 50), .revoke [], .getValue [] none,
   .clear [] none, .addSubordinate [] (.node "c" [⟨3, some 60, 0⟩] []),
   .removeSubordinate [] 0]

/-- Witness for claim C9 at a concrete input: a tree whose group with
identity 1 is revoked, run through one operation of each kind. -/
theorem claim_C9_witness :
    (∀ vg ∈ (statsfs_source_revoke
        (.node "y" [⟨7, some 5, 0⟩] [])).values_head, vg.base_addr = none) ∧
    gid_revoked 1 (runOps envSum (srcRevokedGroup, memZero) opsMixed).1 := by
  have h := claim_C9_revocation_monotonic envSum memZero srcRevokedGroup 1
    opsMixed
    (by
      intro op hop
      simp only [opsMixed, List.mem_cons, List.not_mem_nil, or_false] at hop
      rcases hop with rfl | rfl | rfl | rfl | rfl | rfl
      · show (2 : Nat) ≠ 1
        decide
      · exact trivial
      · exact trivial
      · exact trivial
      · show ∀ vg ∈ allGroups (.node "c" [⟨3, some 60, 0⟩] []), vg.gid ≠ 1
        intro vg hvg
        rw [allGroups] at hvg
        simp only [allGroupsL, List.append_nil, List.mem_singleton] at hvg
        subst hvg
        decide
      · exact trivial)
    (by
      intro vg hvg hg
      rw [srcRevokedGroup, allGroups] at hvg
      simp only [allGroupsL, List.append_nil, List.mem_singleton] at hvg
      subst hvg
      rfl)
  exact ⟨h.1 (.node "y" [⟨7, some 5, 0⟩] []), h.2⟩

/-! Memory lemmas for claim C6. -/

theorem storeZeroLE_eq :
    ∀ (n : Nat) (mem : Mem) (addr x : Nat),
      storeZeroLE mem addr n x = if addr ≤ x ∧ x < addr + n then 0 else mem x
  | 0, mem, addr, x => by
      rw [storeZeroLE]
      split
      · omega
      · rfl
  | n + 1, mem, addr, x => by
      rw [storeZeroLE, storeZeroLE_eq n _ (addr + 1) x]
      split_ifs <;> first | rfl | omega

/-- A cleared field reads back as n zero bytes. -/
theorem loadLE_storeZeroLE_self (mem : Mem) :
    ∀ (n addr : Nat), loadLE (storeZeroLE mem addr n) addr n = 0 := by
  have haux : ∀ (n : Nat) (m : Mem) (addr : Nat),
      (∀ x, addr ≤ x → x < addr + n → m x = 0) → loadLE m addr n = 0 := by
    intro n
    induction n with
    | zero => intro m addr _; rfl
    | succ k ih =>
        intro m addr h
        rw [loadLE]
        rw [h addr (le_refl _) (by omega), ih m (addr + 1)
          (fun x h1 h2 => h x (by omega) (by omega))]
  intro n addr
  apply haux
  intro x h1 h2
  rw [storeZeroLE_eq]
  rw [if_pos ⟨h1, h2⟩]

/-- Memories related by writing some zero bytes only. -/
def zero_mask (m m' : Mem) : Prop := ∀ a, m' a = m a ∨ m' a = 0

theorem zero_mask_refl (m : Mem) : zero_mask m m := fun _ => Or.inl rfl

theorem zero_mask_trans {m1 m2 m3 : Mem} (h1 : zero_mask m1 m2)
    (h2 : zero_mask m2 m3) : zero_mask m1 m3 := by
  intro a
  rcases h2 a with h | h
  · rw [h]; exact h1 a
  · exact Or.inr h

theorem storeZeroLE_zero_mask (m : Mem) (addr n : Nat) :
    zero_mask m (storeZeroLE m addr n) := by
  intro a
  rw [storeZeroLE_eq]
  split
  · exact Or.inr rfl
  · exact Or.inl rfl

theorem clear_simple_value_zero_mask (m : Mem) (g : statsfs_value_source)
    (val : statsfs_value) : zero_mask m (clear_simple_value m g val) := by
  unfold clear_simple_value
  split_ifs <;> first | exact storeZeroLE_zero_mask _ _ _ | exact zero_mask_refl m

/-- A zero-byte load survives any further zero stores. -/
theorem loadLE_zero_pres {m m' : Mem} (hmask : zero_mask m m') :
    ∀ {n addr : Nat}, loadLE m addr n = 0 → loadLE m' addr n = 0 := by
  intro n
  induction n with
  | zero => intro addr _; rfl
  | succ k ih =>
      intro addr h
      rw [loadLE] at h ⊢
      have h1 : m addr % 256 = 0 := by omega
      have h2 : loadLE m (addr + 1) k = 0 := by omega
      rw [ih h2]
      rcases hmask addr with hm | hm <;> rw [hm] <;> omega

/-- `get_simple_value` with the kind constants folded to numerals (no
assumption on the base pointer). -/
theorem get_simple_value_eq0 (mem : Mem) (g : statsfs_value_source)
    (val : statsfs_value) :
    get_simple_value mem g val =
      (if val.type = 0 then loadLE mem (g.base_addr.getD 0 + val.offset) 1
       else if val.type = 32768 then
         s64_of_int (as_signed 8 (loadLE mem (g.base_addr.getD 0 + val.offset) 1))
       else if val.type = 1 then loadLE mem (g.base_addr.getD 0 + val.offset) 2
       else if val.type = 32769 then
         s64_of_int (as_signed 16 (loadLE mem (g.base_addr.getD 0 + val.offset) 2))
       else if val.type = 2 then loadLE mem (g.base_addr.getD 0 + val.offset) 4
       else if val.type = 32770 then
         s64_of_int (as_signed 32 (loadLE mem (g.base_addr.getD 0 + val.offset) 4))
       else if val.type = 3 then loadLE mem (g.base_addr.getD 0 + val.offset) 8
       else if val.type = 32771 then
         s64_of_int (as_signed 64 (loadLE mem (g.base_addr.getD 0 + val.offset) 8))
       else if val.type = 4 then loadLE mem (g.base_addr.getD 0 + val.offset) 1
       else 0) := rfl

/-- `clear_simple_value` with the kind constants folded to numerals. -/
theorem clear_simple_value_eq (mem : Mem) (g : statsfs_value_source)
    (val : statsfs_value) :
    clear_simple_value mem g val =
      (if val.type = 0 then storeZeroLE mem (g.base_addr.getD 0 + val.offset) 1
       else if val.type = 32768 then
         storeZeroLE mem (g.base_addr.getD 0 + val.offset) 1
       else if val.type = 1 then storeZeroLE mem (g.base_addr.getD 0 + val.offset) 2
       else if val.type = 32769 then
         storeZeroLE mem (g.base_addr.getD 0 + val.offset) 2
       else if val.type = 2 then storeZeroLE mem (g.base_addr.getD 0 + val.offset) 4
       else if val.type = 32770 then
         storeZeroLE mem (g.base_addr.getD 0 + val.offset) 4
       else if val.type = 3 then storeZeroLE mem (g.base_addr.getD 0 + val.offset) 8
       else if val.type = 32771 then
         storeZeroLE mem (g.base_addr.getD 0 + val.offset) 8
       else if val.type = 4 then storeZeroLE mem (g.base_addr.getD 0 + val.offset) 1
       else mem) := rfl

/-- Sign extension of a zero pattern is zero. -/
theorem s64_as_signed_zero (w : Nat) :
    s64_of_int (as_signed w 0) = 0 := by
  unfold as_signed s64_of_int
  rw [if_pos (by positivity)]
  norm_num

/-- Reading the field straight after clearing it gives 0 for every
descriptor kind (sign extension of 0 is 0; unknown kinds read 0). -/
theorem get_after_clear_self (m : Mem) (g : statsfs_value_source)
    (val : statsfs_value) :
    get_simple_value (clear_simple_value m g val) g val = 0 := by
  rw [clear_simple_value_eq, get_simple_value_eq0]
  by_cases h0 : val.type = 0
  · simp only [if_pos h0]
    exact loadLE_storeZeroLE_self m _ _
  simp only [if_neg h0]
  by_cases h1 : val.type = 32768
  · simp only [if_pos h1]
    rw [loadLE_storeZeroLE_self]
    exact s64_as_signed_zero _
  simp only [if_neg h1]
  by_cases h2 : val.type = 1
  · simp only [if_pos h2]
    exact loadLE_storeZeroLE_self m _ _
  simp only [if_neg h2]
  by_cases h3 : val.type = 32769
  · simp only [if_pos h3]
    rw [loadLE_storeZeroLE_self]
    exact s64_as_signed_zero _
  simp only [if_neg h3]
  by_cases h4 : val.type = 2
  · simp only [if_pos h4]
    exact loadLE_storeZeroLE_self m _ _
  simp only [if_neg h4]
  by_cases h5 : val.type = 32770
  · simp only [if_pos h5]
    rw [loadLE_storeZeroLE_self]
    exact s64_as_signed_zero _
  simp only [if_neg h5]
  by_cases h6 : val.type = 3
  · simp only [if_pos h6]
    exact loadLE_storeZeroLE_self m _ _
  simp only [if_neg h6]
  by_cases h7 : val.type = 32771
  · simp only [if_pos h7]
    rw [loadLE_storeZeroLE_self]
    exact s64_as_signed_zero _
  simp only [if_neg h7]
  by_cases h8 : val.type = 4
  · simp only [if_pos h8]
    exact loadLE_storeZeroLE_self m _ _
  simp only [if_neg h8]

theorem s64_as_signed_eq_zero {w L : Nat}
    (hw : w = 8 ∨ w = 16 ∨ w = 32 ∨ w = 64) (hL : L < 2 ^ w)
    (h : s64_of_int (as_signed w L) = 0) : L = 0 := by
  rcases hw with rfl | rfl | rfl | rfl <;>
    (unfold as_signed s64_of_int at h; split at h <;> omega)

/-- A zero reading survives any further zero stores. -/
theorem get_simple_value_zero_mask {m m' : Mem} (g : statsfs_value_source)
    (val : statsfs_value) (hmask : zero_mask m m')
    (h : get_simple_value m g val = 0) : get_simple_value m' g val = 0 := by
  rw [get_simple_value_eq0] at h ⊢
  by_cases h0 : val.type = 0
  · simp only [if_pos h0] at h ⊢
    exact loadLE_zero_pres hmask h
  simp only [if_neg h0] at h ⊢
  by_cases h1 : val.type = 32768
  · simp only [if_pos h1] at h ⊢
    have hL0 := s64_as_signed_eq_zero (by norm_num)
      (by simpa using loadLE_lt m 1 _) h
    rw [loadLE_zero_pres hmask hL0]
    exact s64_as_signed_zero _
  simp only [if_neg h1] at h ⊢
  by_cases h2 : val.type = 1
  · simp only [if_pos h2] at h ⊢
    exact loadLE_zero_pres hmask h
  simp only [if_neg h2] at h ⊢
  by_cases h3 : val.type = 32769
  · simp only [if_pos h3] at h ⊢
    have hL0 := s64_as_signed_eq_zero (by norm_num)
      (by simpa using loadLE_lt m 2 _) h
    rw [loadLE_zero_pres hmask hL0]
    exact s64_as_signed_zero _
  simp only [if_neg h3] at h ⊢
  by_cases h4 : val.type = 2
  · simp only [if_pos h4] at h ⊢
    exact loadLE_zero_pres hmask h
  simp only [if_neg h4] at h ⊢
  by_cases h5 : val.type = 32770
  · simp only [if_pos h5] at h ⊢
    have hL0 := s64_as_signed_eq_zero (by norm_num)
      (by simpa using loadLE_lt m 4 _) h
    rw [loadLE_zero_pres hmask hL0]
    exact s64_as_signed_zero _
  simp only [if_neg h5] at h ⊢
  by_cases h6 : val.type = 3
  · simp only [if_pos h6] at h ⊢
    exact loadLE_zero_pres hmask h
  simp only [if_neg h6] at h ⊢
  by_cases h7 : val.type = 32771
  · simp only [if_pos h7] at h ⊢
    have hL0 := s64_as_signed_eq_zero (by norm_num)
      (by simpa using loadLE_lt m 8 _) h
    rw [loadLE_zero_pres hmask hL0]
    exact s64_as_signed_zero _
  simp only [if_neg h7] at h ⊢
  by_cases h8 : val.type = 4
  · simp only [if_pos h8] at h ⊢
    exact loadLE_zero_pres hmask h
  simp only [if_neg h8] at h ⊢

theorem fold_clean_zero_mask (ref : statsfs_value_source)
    (val : statsfs_value) (m : Mem) (g : statsfs_value_source) :
    zero_mask m (fold_clean ref val m g) := by
  unfold fold_clean
  split_ifs <;>
    first
      | exact clear_simple_value_zero_mask m g val
      | exact zero_mask_refl m

theorem foldl_fold_clean_zero_mask (ref : statsfs_value_source)
    (val : statsfs_value) :
    ∀ (l : List statsfs_value_source) (m : Mem),
      zero_mask m (l.foldl (fold_clean ref val) m)
  | [], m => zero_mask_refl m
  | g :: rest, m => by
      rw [List.foldl_cons]
      exact zero_mask_trans (fold_clean_zero_mask ref val m g)
        (foldl_fold_clean_zero_mask ref val rest _)

mutual

theorem do_recursive_clean_zero_mask (ref : statsfs_value_source)
    (val : statsfs_value) :
    ∀ (t : Source) (m : Mem), zero_mask m (do_recursive_clean ref val t m)
  | .node n groups subs, m => by
      rw [do_recursive_clean]
      exact zero_mask_trans (foldl_fold_clean_zero_mask ref val groups m)
        (clean_subordinates_zero_mask ref val subs _)

theorem clean_subordinates_zero_mask (ref : statsfs_value_source)
    (val : statsfs_value) :
    ∀ (l : List Source) (m : Mem), zero_mask m (clean_subordinates ref val l m)
  | [], m => by rw [clean_subordinates]; exact zero_mask_refl m
  | c :: cs, m => by
      rw [clean_subordinates]
      exact zero_mask_trans (do_recursive_clean_zero_mask ref val c m)
        (clean_subordinates_zero_mask ref val cs _)

end

theorem foldl_fold_clean_reads_zero (ref : statsfs_value_source)
    (val : statsfs_value) :
    ∀ (l : List statsfs_value_source) (m : Mem) (g : statsfs_value_source),
      g ∈ l → g.values = ref.values → g.base_addr ≠ none →
      get_simple_value (l.foldl (fold_clean ref val) m) g val = 0
  | [], _, _, hg, _, _ => by simp at hg
  | g0 :: rest, m, g, hg, hv, hb => by
      rw [List.foldl_cons]
      rcases List.mem_cons.mp hg with rfl | hmem
      · have hstep : fold_clean ref val m g = clear_simple_value m g val := by
          unfold fold_clean
          rw [if_neg hb, if_neg (by simp [hv]), if_pos ⟨hb, hv⟩]
        rw [hstep]
        exact get_simple_value_zero_mask g val
          (foldl_fold_clean_zero_mask ref val rest _)
          (get_after_clear_self m g val)
      · exact foldl_fold_clean_reads_zero ref val rest
          (fold_clean ref val m g0) g hmem hv hb

mutual

theorem do_recursive_clean_reads_zero (ref : statsfs_value_source)
    (val : statsfs_value) :
    ∀ (t : Source) (m : Mem) (g : statsfs_value_source),
      g ∈ allGroups t → g.values = ref.values → g.base_addr ≠ none →
      get_simple_value (do_recursive_clean ref val t m) g val = 0
  | .node n groups subs, m, g, hg, hv, hb => by
      rw [do_recursive_clean]
      rw [allGroups] at hg
      rcases List.mem_append.mp hg with hmem | hmem
      · exact get_simple_value_zero_mask g val
          (clean_subordinates_zero_mask ref val subs _)
          (foldl_fold_clean_reads_zero ref val groups m g hmem hv hb)
      · obtain ⟨c, hc, hgc⟩ := (mem_allGroupsL g subs).mp hmem
        exact clean_subordinates_reads_zero ref val subs _ c hc g hgc hv hb

theorem clean_subordinates_reads_zero (ref : statsfs_value_source)
    (val : statsfs_value) :
    ∀ (l : List Source) (m : Mem) (c : Source), c ∈ l →
      ∀ (g : statsfs_value_source), g ∈ allGroups c →
      g.values = ref.values → g.base_addr ≠ none →
      get_simple_value (clean_subordinates ref val l m) g val = 0
  | [], _, _, hc, _, _, _, _ => by simp at hc
  | c0 :: cs, m, c, hc, g, hg, hv, hb => by
      rw [clean_subordinates]
      rcases List.mem_cons.mp hc with rfl | hmem
      · exact get_simple_value_zero_mask g val
          (clean_subordinates_zero_mask ref val cs _)
          (do_recursive_clean_reads_zero ref val c m g hg hv hb)
      · exact clean_subordinates_reads_zero ref val cs _ c hmem g hg hv hb

end

theorem mem_group_readings {m : Mem} {rv : Nat} {val : statsfs_value}
    {x : Nat} {l : List statsfs_value_source} :
    x ∈ group_readings m rv val l ↔
      ∃ g ∈ l, (g.base_addr ≠ none ∧ g.values = rv) ∧
        get_simple_value m g val = x := by
  unfold group_readings
  rw [List.mem_filterMap]
  constructor
  · rintro ⟨g, hg, hf⟩
    split_ifs at hf with hc
    exact ⟨g, hg, hc, Option.some.inj hf⟩
  · rintro ⟨g, hg, hc, hx⟩
    exact ⟨g, hg, by rw [if_pos hc, hx]⟩

mutual

theorem mem_tree_readings (m : Mem) (rv : Nat) (val : statsfs_value) :
    ∀ (t : Source) (x : Nat), x ∈ tree_readings m rv val t ↔
      ∃ g ∈ allGroups t, (g.base_addr ≠ none ∧ g.values = rv) ∧
        get_simple_value m g val = x
  | .node n groups subs, x => by
      rw [tree_readings, List.mem_append, allGroups]
      constructor
      · rintro (h | h)
        · obtain ⟨g, hg, hc, hx⟩ := mem_group_readings.mp h
          exact ⟨g, List.mem_append_left _ hg, hc, hx⟩
        · obtain ⟨g, hg, hc, hx⟩ := (mem_tree_readings_list m rv val subs x).mp h
          exact ⟨g, List.mem_append_right _ hg, hc, hx⟩
      · rintro ⟨g, hg, hc, hx⟩
        rcases List.mem_append.mp hg with h | h
        · exact Or.inl (mem_group_readings.mpr ⟨g, h, hc, hx⟩)
        · exact Or.inr ((mem_tree_readings_list m rv val subs x).mpr
            ⟨g, h, hc, hx⟩)

theorem mem_tree_readings_list (m : Mem) (rv : Nat) (val : statsfs_value) :
    ∀ (l : List Source) (x : Nat), x ∈ tree_readings_list m rv val l ↔
      ∃ g ∈ allGroupsL l, (g.base_addr ≠ none ∧ g.values = rv) ∧
        get_simple_value m g val = x
  | [], x => by
      rw [tree_readings_list, allGroupsL]
      simp
  | c :: cs, x => by
      rw [tree_readings_list, List.mem_append, allGroupsL]
      constructor
      · rintro (h | h)
        · obtain ⟨g, hg, hc, hx⟩ := (mem_tree_readings m rv val c x).mp h
          exact ⟨g, List.mem_append_left _ hg, hc, hx⟩
        · obtain ⟨g, hg, hc, hx⟩ := (mem_tree_readings_list m rv val cs x).mp h
          exact ⟨g, List.mem_append_right _ hg, hc, hx⟩
      · rintro ⟨g, hg, hc, hx⟩
        rcases List.mem_append.mp hg with h | h
        · exact Or.inl ((mem_tree_readings m rv val c x).mpr ⟨g, h, hc, hx⟩)
        · exact Or.inr ((mem_tree_readings_list m rv val cs x).mpr
            ⟨g, h, hc, hx⟩)

end

theorem tree_readings_sum_zero (m : Mem) (ref : statsfs_value_source)
    (val : statsfs_value) (t : Source)
    (hz : ∀ g ∈ allGroups t, g.values = ref.values → g.base_addr ≠ none →
      get_simple_value m g val = 0) :
    (tree_readings m ref.values val t).sum = 0 := by
  apply List.sum_eq_zero
  intro x hx
  obtain ⟨g, hg, ⟨hb, hv⟩, hx'⟩ := (mem_tree_readings m ref.values val t x).mp hx
  rw [← hx']
  exact hz g hg hv hb

theorem fold_agg_zero_read (m : Mem) (ref : statsfs_value_source)
    (val : statsfs_value) (agg : statsfs_aggregate_value)
    (g : statsfs_value_source) (hsign : is_val_signed val = 0)
    (hb : g.base_addr ≠ none) (hv : g.values = ref.values)
    (hz : get_simple_value m g val = 0) :
    (fold_agg m ref val agg g).max = agg.max ∧
    (fold_agg m ref val agg g).min = 0 := by
  unfold fold_agg
  rw [if_neg hb, if_neg (by simp [hv]), if_neg (by simp [hsign])]
  simp only [hz]
  constructor
  · show (if 0 ≥ agg.max then 0 else agg.max) = agg.max
    split <;> omega
  · show (if 0 ≤ agg.min then 0 else agg.min) = 0
    rw [if_pos (Nat.zero_le _)]

theorem foldl_fold_agg_minmax (m : Mem) (ref : statsfs_value_source)
    (val : statsfs_value) (hsign : is_val_signed val = 0) :
    ∀ (l : List statsfs_value_source) (agg : statsfs_aggregate_value),
      (∀ g ∈ l, g.values = ref.values → g.base_addr ≠ none →
        get_simple_value m g val = 0) →
      (l.foldl (fold_agg m ref val) agg).max = agg.max ∧
      (l.foldl (fold_agg m ref val) agg).min
        = (if group_readings m ref.values val l = [] then agg.min else 0)
  | [], agg, _ => ⟨rfl, by simp [group_readings]⟩
  | g :: rest, agg, hz => by
      rw [List.foldl_cons]
      by_cases hm : g.base_addr ≠ none ∧ g.values = ref.values
      · have hz0 := hz g (List.mem_cons_self _ _) hm.2 hm.1
        obtain ⟨hmax, hmin⟩ :=
          fold_agg_zero_read m ref val agg g hsign hm.1 hm.2 hz0
        obtain ⟨ihmax, ihmin⟩ := foldl_fold_agg_minmax m ref val hsign rest
          (fold_agg m ref val agg g)
          (fun g' h' ha hb => hz g' (List.mem_cons_of_mem _ h') ha hb)
        have hr : group_readings m ref.values val (g :: rest)
            = get_simple_value m g val :: group_readings m ref.values val rest := by
          simp [group_readings, List.filterMap_cons, hm.1, hm.2]
        refine ⟨by rw [ihmax, hmax], ?_⟩
        rw [ihmin, hmin, hr]
        split <;> simp
      · rw [fold_agg_eq_of_not m ref val agg g hm]
        obtain ⟨ihmax, ihmin⟩ := foldl_fold_agg_minmax m ref val hsign rest agg
          (fun g' h' ha hb => hz g' (List.mem_cons_of_mem _ h') ha hb)
        have hr : group_readings m ref.values val (g :: rest)
            = group_readings m ref.values val rest := by
          simp only [group_readings, List.filterMap_cons, if_neg hm]
        exact ⟨ihmax, by rw [ihmin, hr]⟩

mutual

theorem do_recursive_aggregation_minmax (m : Mem)
    (ref : statsfs_value_source) (val : statsfs_value)
    (hsign : is_val_signed val = 0) :
    ∀ (t : Source) (agg : statsfs_aggregate_value),
      (∀ g ∈ allGroups t, g.values = ref.values → g.base_addr ≠ none →
        get_simple_value m g val = 0) →
      (do_recursive_aggregation m ref val t agg).max = agg.max ∧
      (do_recursive_aggregation m ref val t agg).min
        = (if tree_readings m ref.values val t = [] then agg.min else 0)
  | .node n groups subs, agg, hz => by
      rw [do_recursive_aggregation]
      have hzg : ∀ g ∈ groups, g.values = ref.values → g.base_addr ≠ none →
          get_simple_value m g val = 0 := by
        intro g hg hv hb
        exact hz g (by rw [allGroups]; exact List.mem_append_left _ hg) hv hb
      have hzs : ∀ g ∈ allGroupsL subs, g.values = ref.values →
          g.base_addr ≠ none → get_simple_value m g val = 0 := by
        intro g hg hv hb
        exact hz g (by rw [allGroups]; exact List.mem_append_right _ hg) hv hb
      obtain ⟨hmax1, hmin1⟩ := foldl_fold_agg_minmax m ref val hsign groups
        agg hzg
      obtain ⟨hmax2, hmin2⟩ := aggregate_subordinates_minmax m ref val hsign
        subs (search_all_simple_values m (Source.node n groups subs) ref val
          agg) hzs
      have hsa : search_all_simple_values m (Source.node n groups subs) ref
          val agg = groups.foldl (fold_agg m ref val) agg := rfl
      constructor
      · rw [hmax2, hsa, hmax1]
      · rw [hmin2, tree_readings]
        by_cases hT : tree_readings_list m ref.values val subs = []
        · rw [if_pos hT, hsa, hmin1, hT, List.append_nil]
        · rw [if_neg hT, if_neg (by simp [hT])]

theorem aggregate_subordinates_minmax (m : Mem)
    (ref : statsfs_value_source) (val : statsfs_value)
    (hsign : is_val_signed val = 0) :
    ∀ (l : List Source) (agg : statsfs_aggregate_value),
      (∀ g ∈ allGroupsL l, g.values = ref.values → g.base_addr ≠ none →
        get_simple_value m g val = 0) →
      (aggregate_subordinates m ref val l agg).max = agg.max ∧
      (aggregate_subordinates m ref val l agg).min
        = (if tree_readings_list m ref.values val l = [] then agg.min else 0)
  | [], agg, _ => by
      rw [aggregate_subordinates]
      refine ⟨rfl, ?_⟩
      rw [tree_readings_list]
      simp
  | c :: cs, agg, hz => by
      rw [aggregate_subordinates]
      have hzc : ∀ g ∈ allGroups c, g.values = ref.values →
          g.base_addr ≠ none → get_simple_value m g val = 0 := by
        intro g hg hv hb
        exact hz g (by rw [allGroupsL]; exact List.mem_append_left _ hg) hv hb
      have hzcs : ∀ g ∈ allGroupsL cs, g.values = ref.values →
          g.base_addr ≠ none → get_simple_value m g val = 0 := by
        intro g hg hv hb
        exact hz g (by rw [allGroupsL]; exact List.mem_append_right _ hg) hv hb
      obtain ⟨hmaxc, hminc⟩ := do_recursive_aggregation_minmax m ref val
        hsign c agg hzc
      obtain ⟨hmaxcs, hmincs⟩ := aggregate_subordinates_minmax m ref val
        hsign cs (do_recursive_aggregation m ref val c agg) hzcs
      constructor
      · rw [hmaxcs, hmaxc]
      · rw [hmincs, tree_readings_list]
        by_cases h1 : tree_readings_list m ref.values val cs = []
        · rw [if_pos h1, hminc, h1, List.append_nil]
        · rw [if_neg h1, if_neg (by simp [h1])]

end

theorem init_aggregate_value_unsigned (val : statsfs_value)
    (hsign : is_val_signed val = 0) :
    (init_aggregate_value val).max = 0 ∧
    (init_aggregate_value val).min = 2 ^ 64 - 1 := by
  unfold init_aggregate_value
  rw [if_neg (by simp [hsign])]
  exact ⟨rfl, rfl⟩

/-- Claim C6 (amended): clearing then reading an attached Sum/Min/Max/Avg
descriptor over an unsigned kind yields 0 — with, for Min at a
placeholder group, at least one matching non-NULL-base leaf in the
subtree (an empty Min keeps the accumulator's initial UINT64_MAX, see the
counterexample). -/
theorem claim_C6_clear_then_get (env : Env) (mem : Mem) (s : Source)
    (d : VPtr) (found : statsfs_value) (src_entry : statsfs_value_source)
    (hsearch : search_value_in_source env s d = some (found, src_entry))
    (hsign : is_val_signed found = 0)
    (haggr : found.aggr_kind = 1 ∨ found.aggr_kind = 2 ∨
      found.aggr_kind = 3 ∨ found.aggr_kind = 5)
    (hmin : found.aggr_kind = 2 → src_entry.base_addr = none →
      ∃ g ∈ allGroups s, g.values = src_entry.values ∧ g.base_addr ≠ none) :
    (statsfs_source_clear env mem s (some d)).1 = 0 ∧
    statsfs_source_get_value env (statsfs_source_clear env mem s (some d)).2
      s (some d) = (0, 0) := by
  unfold statsfs_source_clear statsfs_source_clear_locked
    statsfs_source_get_value statsfs_source_get_value_locked
  simp only [hsearch]
  by_cases hb : src_entry.base_addr = none
  · -- placeholder: recursive clean, then aggregation over zeroed leaves
    simp only [hb, ne_eq, not_true_eq_false, ite_false, if_neg,
      not_false_eq_true]
    refine ⟨trivial, ?_⟩
    have hAll : ∀ g ∈ allGroups s, g.values = src_entry.values →
        g.base_addr ≠ none →
        get_simple_value (do_recursive_clean src_entry found s mem) g
          found = 0 :=
      fun g hg hv hb' =>
        do_recursive_clean_reads_zero src_entry found s mem g hg hv hb'
    have hop : found.aggr_kind ||| is_val_signed found = found.aggr_kind := by
      rw [hsign]
      exact Nat.or_zero _
    have hsum : (do_recursive_aggregation
        (do_recursive_clean src_entry found s mem) src_entry found s
        (init_aggregate_value found)).sum = 0 := by
      rw [do_recursive_aggregation_sum _ src_entry found s _
          (by rw [init_aggregate_value_sum]; norm_num),
        init_aggregate_value_sum,
        tree_readings_sum_zero _ src_entry found s hAll]
      norm_num
    obtain ⟨hmax, hmin'⟩ := do_recursive_aggregation_minmax
      (do_recursive_clean src_entry found s mem) src_entry found hsign s
      (init_aggregate_value found) hAll
    rcases haggr with ha | ha | ha | ha
    · rw [store_final_value_sum _ _ _ ha, hsum]
    · rw [store_final_value_eq, hop, ha,
        if_neg (by norm_num), if_neg (by norm_num), if_neg (by norm_num),
        if_pos (Or.inl rfl)]
      obtain ⟨g, hg, hv, hb'⟩ := hmin ha hb
      rw [hmin', if_neg (List.ne_nil_of_mem
        ((mem_tree_readings _ src_entry.values found s _).mpr
          ⟨g, hg, ⟨hb', hv⟩, rfl⟩))]
    · rw [store_final_value_eq, hop, ha,
        if_neg (by norm_num), if_neg (by norm_num), if_neg (by norm_num),
        if_neg (by norm_num), if_pos (Or.inl rfl)]
      rw [hmax, (init_aggregate_value_unsigned found hsign).1]
    · rw [store_final_value_eq, hop, ha, if_pos rfl, hsum]
      split
      · simp
      · rfl
  · -- leaf at the root: clear that field, read it back
    simp only [hb, ne_eq, ite_true, if_pos, not_false_eq_true]
    exact ⟨trivial, by rw [get_after_clear_self]⟩

def descMin : statsfs_value :=
  { name := "m", offset := 0, type := 3, aggr_kind := 2 }

def envMin : Env where
  arrays a :=
    match a with
    | 0 => [descMin]
    | _ => []

def srcMin : Source :=
  .node "p" [⟨1, none, 0⟩] [.node "c" [⟨2, some 100, 0⟩] []]

def srcMinEmpty : Source := .node "s" [⟨1, none, 0⟩] []

/-- Witness for claim C6 (amended) at a concrete input: a u64 Min
placeholder over one leaf holding 10; after `clear`, `get_value` is 0. -/
theorem claim_C6_witness :
    (statsfs_source_clear envMin memLeaves srcMin (some ⟨0, 0⟩)).1 = 0 ∧
    statsfs_source_get_value envMin
      (statsfs_source_clear envMin memLeaves srcMin (some ⟨0, 0⟩)).2 srcMin
      (some ⟨0, 0⟩) = (0, 0) := by
  apply claim_C6_clear_then_get envMin memLeaves srcMin ⟨0, 0⟩ descMin
    ⟨1, none, 0⟩ rfl rfl (Or.inr (Or.inl rfl))
  intro _ _
  refine ⟨⟨2, some 100, 0⟩, by decide, rfl, by simp⟩

/-- Claim C6 as frozen is FALSE for Min with no matching leaf: the
accumulator's initial `min` (UINT64_MAX for an unsigned kind) is stored
unconditionally, so clear-then-get on an unsigned Min placeholder with no
leaves yields 18446744073709551615, not 0. -/
theorem claim_C6_counterexample :
    search_value_in_source envMin srcMinEmpty ⟨0, 0⟩
      = some (descMin, ⟨1, none, 0⟩) ∧
    is_val_signed descMin = 0 ∧
    descMin.aggr_kind = 2 ∧
    (statsfs_source_clear envMin memZero srcMinEmpty (some ⟨0, 0⟩)).1 = 0 ∧
    statsfs_source_get_value envMin
      (statsfs_source_clear envMin memZero srcMinEmpty (some ⟨0, 0⟩)).2
      srcMinEmpty (some ⟨0, 0⟩) = (0, 18446744073709551615) ∧
    (18446744073709551615 : Nat) ≠ 0 := by
  refine ⟨rfl, rfl, rfl, rfl, ?_, by norm_num⟩
  decide
